import Mathlib

/-!
Verification of the multi-article aggregation pipeline
(`src/models/comparative_analyzer.py`, class `ComparativeAnalyzer`).

The Python records are duck-typed dictionaries; we embed them as structures
whose optional keys become `Option` fields.  Accessing a missing `'title'`
key raises `KeyError` in the source, which the outer `try/except` of
`analyze` converts into an error-state result; we model the fallible part
of the method as an `Except String` computation and `analyze` as the total
function that catches the error.  Machine floats are modelled as exact
rationals.
-/

/-- Embeds the `'sentiment'` sub-dictionary of an article record:
both keys are read with `.get`, hence optional. -/
structure Sentiment where
  sentiment : Option String := none
  confidence : Option ℚ := none
  deriving DecidableEq, Repr

/-- Embeds one article dictionary.  `analyze` reads `'topics'` and
`'sentiment'` through `.get` with defaults (so absence is indistinguishable
from `[]` / `{}`), but indexes `'title'` directly (`article['title']`),
so a missing title is observable as a `KeyError`.  The remaining keys are
carried only so that record equality (`!=` on dictionaries in the
topic-overlap loop) is faithful. -/
structure Article where
  title : Option String := none
  url : Option String := none
  source : Option String := none
  date : Option String := none
  content : Option String := none
  summary : Option String := none
  topics : List String := []
  sentiment : Option Sentiment := none
  deriving DecidableEq, Repr

/-- One entry of `coverage_differences`. -/
structure Comparison where
  comparison : String
  impact : String
  deriving DecidableEq, Repr

/-- The `topic_overlap` sub-dictionary (present only for two or more
articles). -/
structure TopicOverlap where
  common_topics : List String
  unique_topics_by_article : List (String × List String)
  deriving DecidableEq, Repr

/-- The `topic_analysis` sub-dictionary of a successful result. -/
structure TopicAnalysis where
  most_common_topics : List (String × Nat)
  topic_overlap : Option TopicOverlap
  deriving DecidableEq, Repr

/-- The dictionary returned by `ComparativeAnalyzer.analyze`.  On the
empty-input and error paths `topic_analysis` is the empty dictionary,
modelled as `none`. -/
structure AnalysisResult where
  sentiment_distribution : List (String × Nat)
  coverage_differences : List Comparison
  topic_analysis : Option TopicAnalysis
  final_sentiment : String
  error : Option String := none
  deriving DecidableEq, Repr

/-- `article.get('sentiment', {}).get('sentiment')` — no default. -/
def rawLabel (a : Article) : Option String :=
  a.sentiment.bind Sentiment.sentiment

/-- `article.get('sentiment', {}).get('sentiment', 'Neutral')`. -/
def labelD (a : Article) : String :=
  (rawLabel a).getD "Neutral"

/-- `article.get('sentiment', {}).get('confidence', 0)`. -/
def confD (a : Article) : ℚ :=
  (a.sentiment.bind Sentiment.confidence).getD 0

/-- The title of an article that is known to have one. -/
def titleD (a : Article) : String :=
  a.title.getD ""

/-- `article['title']`: raises `KeyError('title')` when the key is absent
(`str` of that exception is `"'title'"`). -/
def getTitle (a : Article) : Except String String :=
  match a.title with
  | some t => Except.ok t
  | none => Except.error "'title'"

/-- The concatenation `all_topics` built by
`for article in articles: all_topics.extend(article.get('topics', []))`. -/
def allTopics (articles : List Article) : List String :=
  (articles.map Article.topics).flatten

/-- Distinct elements of a list in order of first occurrence, skipping
those already in `seen` (the key order of a Python `Counter`/`dict`). -/
def firstOccsAux (seen : List String) : List String → List String
  | [] => []
  | x :: xs =>
    if seen.contains x then firstOccsAux seen xs
    else x :: firstOccsAux (x :: seen) xs

/-- Distinct elements of a list in order of first occurrence. -/
def firstOccs (xs : List String) : List String :=
  firstOccsAux [] xs

/-- `collections.Counter(xs)` (as converted by `dict(...)` / iterated by
`.items()`): keys in order of first occurrence, each mapped to its number
of occurrences. -/
def countOcc (xs : List String) : List (String × Nat) :=
  (firstOccs xs).map (fun k => (k, xs.count k))

/-- `counter.get(k, 0)` on the tally. -/
def getCount (m : List (String × Nat)) (k : String) : Nat :=
  match m.find? (fun p => p.1 == k) with
  | some p => p.2
  | none => 0

/-- Insert an item into a count-descending list, after every item of
count ≥ its own (the stable placement used by `heapq.nlargest`). -/
def insertDesc (p : String × Nat) : List (String × Nat) → List (String × Nat)
  | [] => [p]
  | q :: qs => if q.2 < p.2 then p :: q :: qs else q :: insertDesc p qs

/-- Stable sort by descending count (the documented semantics of
`sorted(items, key=count, reverse=True)`, which `heapq.nlargest` and hence
`Counter.most_common` are specified to agree with). -/
def sortDesc (l : List (String × Nat)) : List (String × Nat) :=
  l.foldl (fun acc p => insertDesc p acc) []

/-- `counter.most_common(n)`. -/
def mostCommon (n : Nat) (l : List (String × Nat)) : List (String × Nat) :=
  (sortDesc l).take n

/-- `a.get('sentiment', {}).get('sentiment') == 'Positive'` (the filter
building `positive_articles`). -/
def isPos (a : Article) : Bool :=
  rawLabel a == some "Positive"

/-- The filter building `negative_articles`. -/
def isNeg (a : Article) : Bool :=
  rawLabel a == some "Negative"

/-- The fixed polarity-contrast template. -/
def polarityCmp (pt nt : String) : Comparison :=
  { comparison := pt ++ " presents a positive view, while " ++ nt ++
      " discusses negative aspects."
    impact := "These contrasting viewpoints suggest mixed market reactions or controversial developments." }

/-- The `if positive_articles and negative_articles:` block: pair the
first positive with the first negative article; reading either title can
raise. -/
def polarityContrast (articles : List Article) : Except String (List Comparison) :=
  match articles.filter isPos, articles.filter isNeg with
  | p :: _, n :: _ => do
    let pt ← getTitle p
    let nt ← getTitle n
    pure [polarityCmp pt nt]
  | _, _ => pure []

/-- `topic_article_map[topic].append(article)` with key creation on first
use (keys keep insertion order, as Python dictionaries do). -/
def addTopic (m : List (String × List Article)) (t : String) (a : Article) :
    List (String × List Article) :=
  if m.any (fun p => p.1 == t) then
    m.map (fun p => if p.1 == t then (p.1, p.2 ++ [a]) else p)
  else m ++ [(t, [a])]

/-- The inner loop `for topic in article.get('topics', [])`. -/
def addArticleTopics (m : List (String × List Article)) (a : Article) :
    List (String × List Article) :=
  a.topics.foldl (fun m t => addTopic m t a) m

/-- The outer loop `for article in articles` building `topic_article_map`. -/
def buildTopicMapAux (m : List (String × List Article)) :
    List Article → List (String × List Article)
  | [] => m
  | a :: rest => buildTopicMapAux (addArticleTopics m a) rest

/-- The full `topic_article_map` construction. -/
def buildTopicMap (articles : List Article) : List (String × List Article) :=
  buildTopicMapAux [] articles

/-- The fixed topic-contrast template. -/
def topicCmp (t t1 t2 : String) : Comparison :=
  { comparison := "Articles about '" ++ t ++ "' show differing perspectives: " ++
      t1 ++ " vs " ++ t2
    impact := "This suggests the '" ++ t ++ "' aspect may be a point of contention or uncertainty." }

/-- The body of the loop over `topic_article_map.items()`: with at least
two articles for the topic, compare the first two; emit one comparison
exactly when their (raw) sentiment labels differ. -/
def topicContrast1 (t : String) : List Article → Except String (List Comparison)
  | a1 :: a2 :: _ =>
    if rawLabel a1 == rawLabel a2 then pure []
    else do
      let t1 ← getTitle a1
      let t2 ← getTitle a2
      pure [topicCmp t t1 t2]
  | _ => pure []

/-- The loop over `topic_article_map.items()`, in key insertion order. -/
def topicContrasts : List (String × List Article) → Except String (List Comparison)
  | [] => pure []
  | (t, as) :: rest => do
    let c ← topicContrast1 t as
    let cs ← topicContrasts rest
    pure (c ++ cs)

/-- The `other_topics` set for one article: topics of every article that
is not equal — as a record, Python `!=` on dictionaries — to it. -/
def otherTopicsFor (articles : List Article) (a : Article) : List String :=
  (articles.filter (fun b => !(b == a))).foldl (fun s b => s ++ b.topics) []

/-- The key label `f"Article {i+1} ({article['title'][:30]}...)"`. -/
def mkKey (i : Nat) (t : String) : String :=
  "Article " ++ toString (i + 1) ++ " (" ++ t.take 30 ++ "...)"

/-- The set difference `set(article.get('topics', [])) - other_topics`,
as the deduplicated topic list filtered against the other articles. -/
def uniqueFor (articles : List Article) (a : Article) : List String :=
  (firstOccs a.topics).filter (fun t => !((otherTopicsFor articles a).contains t))

/-- The `for i, article in enumerate(articles)` loop building
`unique_topics_by_article`; the title is read only when the difference is
non-empty, exactly as in the f-string of the source. -/
def uniqueTopicsLoop (all : List Article) :
    List Article → Nat → Except String (List (String × List String))
  | [], _ => pure []
  | a :: rest, i => do
    let u := uniqueFor all a
    let entry ← if u.isEmpty then pure ([] : List (String × List String))
      else do
        let t ← getTitle a
        pure [(mkKey i t, u)]
    let more ← uniqueTopicsLoop all rest (i + 1)
    pure (entry ++ more)

/-- The `common_topics` set: topics whose tally count is at least 2. -/
def commonTopics (tc : List (String × Nat)) : List String :=
  (tc.filter (fun p => 2 ≤ p.2)).map Prod.fst

/-- The `if len(articles) >= 2:` topic-overlap block. -/
def topicOverlapE (articles : List Article) : Except String (Option TopicOverlap) :=
  if 2 ≤ articles.length then do
    let uniq ← uniqueTopicsLoop articles articles 0
    pure (some { common_topics := commonTopics (countOcc (allTopics articles))
                 unique_topics_by_article := uniq })
  else pure none

/-- The overall-verdict cascade over the sentiment tally. -/
def classify (sc : List (String × Nat)) : String :=
  if getCount sc "Positive" > max (getCount sc "Negative") (getCount sc "Neutral") then
    "mostly positive"
  else if getCount sc "Negative" > max (getCount sc "Positive") (getCount sc "Neutral") then
    "mostly negative"
  else if getCount sc "Neutral" > max (getCount sc "Positive") (getCount sc "Negative") then
    "generally neutral"
  else "mixed"

/-- Round to the nearest integer, halves to even (the rounding of
`format(x, '.2f')`). -/
def roundHalfEven (q : ℚ) : ℤ :=
  let f := ⌊q⌋
  let r := q - (f : ℚ)
  if r < 1 / 2 then f
  else if 1 / 2 < r then f + 1
  else if f % 2 = 0 then f else f + 1

/-- Two-digit zero padding. -/
def pad2 (n : Nat) : String :=
  if n < 10 then "0" ++ toString n else toString n

/-- `f"{q:.2f}"` on an exact rational. -/
def format2 (q : ℚ) : String :=
  let n := roundHalfEven (q * 100)
  let m := n.natAbs
  (if n < 0 then "-" else "") ++ toString (m / 100) ++ "." ++ pad2 (m % 100)

/-- The pure tail of the `try` block: tallies, `most_common(5)`, the
truncation `coverage_differences[:5]`, the verdict sentence, and the mean
confidence (`sum(confidences) / len(confidences) if confidences else 0`). -/
def assemble (articles : List Article) (cd1 cd2 : List Comparison)
    (overlap : Option TopicOverlap) : AnalysisResult :=
  let sentiment_counts := countOcc (articles.map labelD)
  let tc := countOcc (allTopics articles)
  let confs := articles.map confD
  let avg : ℚ := if confs.isEmpty then 0 else confs.sum / (confs.length : ℚ)
  { sentiment_distribution := sentiment_counts
    coverage_differences := (cd1 ++ cd2).take 5
    topic_analysis := some { most_common_topics := mostCommon 5 tc
                             topic_overlap := overlap }
    final_sentiment := "The news coverage is " ++ classify sentiment_counts ++
      " with an average confidence of " ++ format2 avg ++ "." }

/-- The whole `try` block: the three fallible passes in source order,
then the pure assembly of the returned dictionary. -/
def analyzeBody (articles : List Article) : Except String AnalysisResult := do
  let cd1 ← polarityContrast articles
  let cd2 ← topicContrasts (buildTopicMap articles)
  let overlap ← topicOverlapE articles
  pure (assemble articles cd1 cd2 overlap)

/-- The shared shape of the two early-return dictionaries. -/
def emptyResult (fs : String) (e : Option String) : AnalysisResult :=
  { sentiment_distribution := []
    coverage_differences := []
    topic_analysis := none
    final_sentiment := fs
    error := e }

/-- `ComparativeAnalyzer.analyze`: the `if not articles:` early return,
then the `try`/`except` around the aggregation body. -/
def analyze (articles : List Article) : AnalysisResult :=
  if articles.isEmpty then emptyResult "No data available" none
  else
    match analyzeBody articles with
    | Except.ok r => r
    | Except.error e => emptyResult "Error in analysis" (some e)

/-- The class `ComparativeAnalyzer`: `__init__` stores nothing, so the
instance state is empty. -/
structure ComparativeAnalyzer where
  deriving DecidableEq, Repr

/-- The method call `self.analyze(articles)`, with the instance state
threaded explicitly: the body reads and writes no attribute of `self`. -/
def ComparativeAnalyzer.analyzeM (self : ComparativeAnalyzer)
    (articles : List Article) : AnalysisResult × ComparativeAnalyzer :=
  (analyze articles, self)

/-- The call `analyzer.analyze(articles)` seen from the caller's frame:
the second component is the state of the argument list (and of every
record in it) after the call; the method body contains no assignment or
mutating call on `articles` or its elements, so that state is the input
itself. -/
def analyzeCall (articles : List Article) : AnalysisResult × List Article :=
  (analyze articles, articles)

/-- Every article of the list has a `'title'` key — the `ArticleRecord`
data-model invariant (`title: string`). -/
def allTitled (articles : List Article) : Prop :=
  ∀ a ∈ articles, a.title ≠ none

instance : DecidablePred allTitled := fun articles =>
  List.decidableBAll _ articles

/-- The value of the polarity-contrast pass when no title is missing. -/
def polarityPure (articles : List Article) : List Comparison :=
  match articles.filter isPos, articles.filter isNeg with
  | p :: _, n :: _ => [polarityCmp (titleD p) (titleD n)]
  | _, _ => []

/-- The value of one topic-contrast step when no title is missing. -/
def topicContrast1Pure (t : String) : List Article → List Comparison
  | a1 :: a2 :: _ =>
    if rawLabel a1 == rawLabel a2 then []
    else [topicCmp t (titleD a1) (titleD a2)]
  | _ => []

/-- The value of the topic-contrast pass when no title is missing. -/
def topicContrastsPure : List (String × List Article) → List Comparison
  | [] => []
  | (t, as) :: rest => topicContrast1Pure t as ++ topicContrastsPure rest

/-- The value of the unique-topics loop when no title is missing. -/
def uniquePureLoop (all : List Article) :
    List Article → Nat → List (String × List String)
  | [], _ => []
  | a :: rest, i =>
    (if (uniqueFor all a).isEmpty then []
     else [(mkKey i (titleD a), uniqueFor all a)]) ++
      uniquePureLoop all rest (i + 1)

/-- The value of the topic-overlap block when no title is missing. -/
def overlapPure (articles : List Article) : Option TopicOverlap :=
  if 2 ≤ articles.length then
    some { common_topics := commonTopics (countOcc (allTopics articles))
           unique_topics_by_article := uniquePureLoop articles articles 0 }
  else none

/-- The result of `analyze` on a non-empty input whose records all carry a
title (the success path of the `try` block). -/
def analyzeOk (articles : List Article) : AnalysisResult :=
  assemble articles (polarityPure articles)
    (topicContrastsPure (buildTopicMap articles)) (overlapPure articles)

/-- Modelled from the spec: the `unique_topics_by_article` mapping as §4.1
words it, with the amendment forced by the source — a topic of article `i`
counts as unique when no article **not equal to it as a record** carries
the topic (the source's `other_article != article` compares dictionaries
by value, so a duplicated record is not "other"), rather than no article
at another index. -/
def uniqueSpecAux (articles : List Article) :
    List Article → Nat → List (String × List String)
  | [], _ => []
  | a :: rest, i =>
    (if ((firstOccs a.topics).filter
          (fun t => decide (∀ b ∈ articles, b ≠ a → t ∉ b.topics))).isEmpty
     then []
     else [(mkKey i (titleD a),
       (firstOccs a.topics).filter
         (fun t => decide (∀ b ∈ articles, b ≠ a → t ∉ b.topics)))]) ++
      uniqueSpecAux articles rest (i + 1)

/-- Modelled from the spec (see `uniqueSpecAux`): every article in input
order, keyed by 1-based index and truncated title. -/
def uniqueSpec (articles : List Article) : List (String × List String) :=
  uniqueSpecAux articles articles 0

/-- Every article of every list of the topic map satisfies `P` with the
map's key. -/
def MapProp (m : List (String × List Article)) (P : String → Article → Prop) : Prop :=
  ∀ p ∈ m, ∀ b ∈ p.2, P p.1 b

/-- An article record with a title and a scored sentiment. -/
def mkArt (t : String) (lbl : Option String) (c : Option ℚ) (tps : List String) :
    Article :=
  { title := some t, topics := tps
    sentiment := some { sentiment := lbl, confidence := c } }

/-- The spec's worked example: labels [Positive, Positive, Negative] with
confidences [0.9, 0.8, 0.4]. -/
def exThree : List Article :=
  [mkArt "A" (some "Positive") (some (9 / 10)) [],
   mkArt "B" (some "Positive") (some (8 / 10)) [],
   mkArt "C" (some "Negative") (some (4 / 10)) []]

/-- A positive article about EV and Stock. -/
def evPos : Article :=
  mkArt "Tesla stock soars" (some "Positive") none ["EV", "Stock"]

/-- A negative article about EV and Cybertruck. -/
def evNeg : Article :=
  mkArt "Cybertruck delayed again" (some "Negative") none
    ["EV", "Cybertruck"]

/-- The spec's topic-overlap example: ["EV","Stock"] versus
["EV","Cybertruck"], with opposite sentiment labels. -/
def exEV : List Article :=
  [evPos, evNeg]

/-- Two articles with identical labels sharing one topic. -/
def exSame : List Article :=
  [mkArt "A" (some "Positive") none ["T"],
   mkArt "B" (some "Positive") none ["T"]]

/-- A duplicated record: two equal articles carrying the same topic. -/
def dupArt : Article :=
  { title := some "T", topics := ["X"], sentiment := none }

/-- An input on which the aggregation body faults: the first positive
article has no `'title'` key, so the polarity-contrast f-string raises. -/
def exFail : List Article :=
  [{ title := none, sentiment := some { sentiment := some "Positive" } },
   mkArt "B" (some "Negative") none []]

/-! ### The success path: with every title present the fallible passes
return their pure values. -/

theorem getTitle_ok {a : Article} (h : a.title ≠ none) :
    getTitle a = Except.ok (titleD a) := by
  cases ht : a.title with
  | none => exact absurd ht h
  | some t => simp [getTitle, titleD, ht]

theorem polarityContrast_ok {articles : List Article} (h : allTitled articles) :
    polarityContrast articles = Except.ok (polarityPure articles) := by
  unfold polarityContrast polarityPure
  cases hp : articles.filter isPos with
  | nil => cases articles.filter isNeg <;> rfl
  | cons p ps =>
    cases hn : articles.filter isNeg with
    | nil => rfl
    | cons n ns =>
      have hp' : p ∈ articles :=
        List.mem_of_mem_filter (hp ▸ List.mem_cons_self p ps)
      have hn' : n ∈ articles :=
        List.mem_of_mem_filter (hn ▸ List.mem_cons_self n ns)
      simp only [getTitle_ok (h p hp'), getTitle_ok (h n hn')]
      rfl

theorem topicContrast1_ok {t : String} {as : List Article}
    (h : ∀ a ∈ as, a.title ≠ none) :
    topicContrast1 t as = Except.ok (topicContrast1Pure t as) := by
  match as with
  | [] => rfl
  | [a] => rfl
  | a1 :: a2 :: rest =>
    unfold topicContrast1 topicContrast1Pure
    by_cases hl : rawLabel a1 == rawLabel a2
    · simp only [hl, if_true]
      rfl
    · simp only [hl, if_false, Bool.false_eq_true,
        getTitle_ok (h a1 (by simp)), getTitle_ok (h a2 (by simp))]
      rfl

theorem topicContrasts_ok {m : List (String × List Article)}
    (h : ∀ p ∈ m, ∀ a ∈ p.2, a.title ≠ none) :
    topicContrasts m = Except.ok (topicContrastsPure m) := by
  induction m with
  | nil => rfl
  | cons p rest ih =>
    obtain ⟨t, as⟩ := p
    have h1 : ∀ a ∈ as, a.title ≠ none := fun a ha => h (t, as) (by simp) a ha
    have h2 : ∀ p ∈ rest, ∀ a ∈ p.2, a.title ≠ none :=
      fun p hp a ha => h p (List.mem_cons_of_mem _ hp) a ha
    show topicContrasts ((t, as) :: rest) = _
    unfold topicContrasts topicContrastsPure
    rw [topicContrast1_ok h1, ih h2]
    rfl

theorem uniqueTopicsLoop_ok {all : List Article} :
    ∀ {l : List Article} {i : Nat}, (∀ a ∈ l, a.title ≠ none) →
      uniqueTopicsLoop all l i = Except.ok (uniquePureLoop all l i)
  | [], _, _ => rfl
  | a :: rest, i, h => by
    have h1 : a.title ≠ none := h a (by simp)
    have h2 : ∀ b ∈ rest, b.title ≠ none :=
      fun b hb => h b (List.mem_cons_of_mem _ hb)
    unfold uniqueTopicsLoop uniquePureLoop
    by_cases hu : (uniqueFor all a).isEmpty
    · rw [if_pos hu, if_pos hu, uniqueTopicsLoop_ok h2]
      rfl
    · rw [if_neg hu, if_neg hu, getTitle_ok h1, uniqueTopicsLoop_ok h2]
      rfl

theorem topicOverlapE_ok {articles : List Article} (h : allTitled articles) :
    topicOverlapE articles = Except.ok (overlapPure articles) := by
  unfold topicOverlapE overlapPure
  by_cases h2 : 2 ≤ articles.length
  · rw [if_pos h2, if_pos h2, uniqueTopicsLoop_ok h]
    rfl
  · rw [if_neg h2, if_neg h2]
    rfl

theorem addTopic_mapProp {m : List (String × List Article)}
    {P : String → Article → Prop} {t : String} {a : Article}
    (hm : MapProp m P) (ha : P t a) : MapProp (addTopic m t a) P := by
  intro p hp b hb
  unfold addTopic at hp
  by_cases hc : m.any (fun p => p.1 == t)
  · rw [if_pos hc] at hp
    obtain ⟨q, hq, hpq⟩ := List.mem_map.mp hp
    by_cases hqt : q.1 == t
    · rw [if_pos hqt] at hpq
      subst hpq
      rcases List.mem_append.mp hb with h1 | h2
      · exact hm q hq b h1
      · have hba : b = a := by simpa using h2
        have hqt' : q.1 = t := by simpa using hqt
        rw [hba]
        show P q.1 a
        rw [hqt']
        exact ha
    · rw [if_neg hqt] at hpq
      subst hpq
      exact hm q hq b hb
  · rw [if_neg hc] at hp
    rcases List.mem_append.mp hp with h1 | h2
    · exact hm p h1 b hb
    · have hpa : p = (t, [a]) := by simpa using h2
      subst hpa
      have hba : b = a := by simpa using hb
      rw [hba]
      exact ha

theorem foldl_addTopic_mapProp {P : String → Article → Prop} {a : Article} :
    ∀ (l : List String) (m : List (String × List Article)),
      MapProp m P → (∀ t ∈ l, P t a) →
      MapProp (l.foldl (fun m t => addTopic m t a) m) P
  | [], _, hm, _ => hm
  | t :: ts, m, hm, hl => by
    have h1 : P t a := hl t (by simp)
    have h2 : ∀ u ∈ ts, P u a := fun u hu => hl u (List.mem_cons_of_mem _ hu)
    exact foldl_addTopic_mapProp ts _ (addTopic_mapProp hm h1) h2

theorem buildTopicMapAux_mapProp {P : String → Article → Prop} :
    ∀ (l : List Article) (m : List (String × List Article)),
      MapProp m P → (∀ a ∈ l, ∀ t ∈ a.topics, P t a) →
      MapProp (buildTopicMapAux m l) P
  | [], _, hm, _ => hm
  | a :: rest, m, hm, hl => by
    have h1 : ∀ t ∈ a.topics, P t a := hl a (by simp)
    have h2 : ∀ b ∈ rest, ∀ t ∈ b.topics, P t b :=
      fun b hb => hl b (List.mem_cons_of_mem _ hb)
    exact buildTopicMapAux_mapProp rest _
      (foldl_addTopic_mapProp a.topics m hm h1) h2

theorem buildTopicMap_mapProp {articles : List Article}
    {P : String → Article → Prop}
    (hl : ∀ a ∈ articles, ∀ t ∈ a.topics, P t a) :
    MapProp (buildTopicMap articles) P :=
  buildTopicMapAux_mapProp articles [] (by intro p hp; simp at hp) hl

theorem buildTopicMap_article_mem {articles : List Article} :
    MapProp (buildTopicMap articles) (fun t b => b ∈ articles ∧ t ∈ b.topics) :=
  buildTopicMap_mapProp (fun _ ha _ ht => ⟨ha, ht⟩)

theorem analyzeBody_ok {articles : List Article} (h : allTitled articles) :
    analyzeBody articles = Except.ok (analyzeOk articles) := by
  have hm : ∀ p ∈ buildTopicMap articles, ∀ a ∈ p.2, a.title ≠ none :=
    fun p hp a ha => h a (buildTopicMap_article_mem p hp a ha).1
  unfold analyzeBody analyzeOk
  rw [polarityContrast_ok h, topicContrasts_ok hm, topicOverlapE_ok h]
  rfl

theorem analyze_eq {articles : List Article} (hne : articles ≠ [])
    (h : allTitled articles) : analyze articles = analyzeOk articles := by
  cases articles with
  | nil => exact absurd rfl hne
  | cons a rest => simp [analyze, analyzeBody_ok h]

theorem analyzeBody_eq_ok {articles : List Article} {r : AnalysisResult}
    (h : analyzeBody articles = Except.ok r) :
    ∃ c1 c2 ov, r = assemble articles c1 c2 ov := by
  unfold analyzeBody at h
  cases h1 : polarityContrast articles with
  | error e => rw [h1] at h; simp [Bind.bind, Except.bind] at h
  | ok c1 =>
    rw [h1] at h
    cases h2 : topicContrasts (buildTopicMap articles) with
    | error e => rw [h2] at h; simp [Bind.bind, Except.bind] at h
    | ok c2 =>
      rw [h2] at h
      cases h3 : topicOverlapE articles with
      | error e =>
        rw [h3] at h
        simp [Bind.bind, Except.bind, Functor.map, Except.map] at h
      | ok ov =>
        rw [h3] at h
        simp only [Bind.bind, Except.bind, Functor.map, Except.map, pure,
          Except.pure, Except.ok.injEq] at h
        exact ⟨c1, c2, ov, h.symm⟩

/-! ### Counters: first-occurrence key order, counts, and totals. -/

theorem contains_iff {l : List String} {y : String} :
    l.contains y = true ↔ y ∈ l := by
  simp [List.contains]

theorem mem_firstOccsAux {y : String} :
    ∀ (xs seen : List String),
      y ∈ firstOccsAux seen xs ↔ y ∈ xs ∧ y ∉ seen
  | [], seen => by simp [firstOccsAux]
  | x :: xs, seen => by
    unfold firstOccsAux
    by_cases hc : seen.contains x
    · rw [if_pos hc, mem_firstOccsAux xs seen]
      have hx : x ∈ seen := contains_iff.mp hc
      constructor
      · rintro ⟨h1, h2⟩
        exact ⟨List.mem_cons_of_mem _ h1, h2⟩
      · rintro ⟨h1, h2⟩
        rcases List.mem_cons.mp h1 with rfl | h1'
        · exact absurd hx h2
        · exact ⟨h1', h2⟩
    · rw [if_neg hc]
      have hx : x ∉ seen := fun h => hc (contains_iff.mpr h)
      rw [List.mem_cons, mem_firstOccsAux xs (x :: seen)]
      constructor
      · rintro (rfl | ⟨h1, h2⟩)
        · exact ⟨List.mem_cons_self _ _, hx⟩
        · exact ⟨List.mem_cons_of_mem _ h1,
            fun hy => h2 (List.mem_cons_of_mem _ hy)⟩
      · rintro ⟨h1, h2⟩
        by_cases hyx : y = x
        · exact Or.inl hyx
        · rcases List.mem_cons.mp h1 with rfl | h1'
          · exact Or.inl rfl
          · refine Or.inr ⟨h1', fun hy => ?_⟩
            rcases List.mem_cons.mp hy with rfl | hy'
            · exact hyx rfl
            · exact h2 hy'

theorem firstOccsAux_nodup :
    ∀ (xs seen : List String), (firstOccsAux seen xs).Nodup
  | [], _ => by simp [firstOccsAux]
  | x :: xs, seen => by
    unfold firstOccsAux
    by_cases hc : seen.contains x
    · rw [if_pos hc]
      exact firstOccsAux_nodup xs seen
    · rw [if_neg hc]
      refine List.nodup_cons.mpr ⟨?_, firstOccsAux_nodup xs (x :: seen)⟩
      intro hx
      exact ((mem_firstOccsAux xs (x :: seen)).mp hx).2 (List.mem_cons_self _ _)

theorem firstOccsAux_pairwise :
    ∀ (xs seen : List String),
      (firstOccsAux seen xs).Pairwise (fun a b => xs.indexOf a < xs.indexOf b)
  | [], _ => by simp [firstOccsAux]
  | x :: xs, seen => by
    unfold firstOccsAux
    by_cases hc : seen.contains x
    · rw [if_pos hc]
      refine List.Pairwise.imp_of_mem ?_ (firstOccsAux_pairwise xs seen)
      intro a b ha hb hab
      have hax : a ≠ x := fun h =>
        ((mem_firstOccsAux xs seen).mp ha).2 (h ▸ contains_iff.mp hc)
      have hbx : b ≠ x := fun h =>
        ((mem_firstOccsAux xs seen).mp hb).2 (h ▸ contains_iff.mp hc)
      rw [List.indexOf_cons_ne _ (Ne.symm hax), List.indexOf_cons_ne _ (Ne.symm hbx)]
      exact Nat.succ_lt_succ hab
    · rw [if_neg hc]
      refine List.pairwise_cons.mpr ⟨?_, ?_⟩
      · intro b hb
        have hbx : b ≠ x := fun h =>
          ((mem_firstOccsAux xs (x :: seen)).mp hb).2 (h ▸ List.mem_cons_self _ _)
        rw [List.indexOf_cons_self, List.indexOf_cons_ne _ (Ne.symm hbx)]
        exact Nat.succ_pos _
      · refine List.Pairwise.imp_of_mem ?_ (firstOccsAux_pairwise xs (x :: seen))
        intro a b ha hb hab
        have hax : a ≠ x := fun h =>
          ((mem_firstOccsAux xs (x :: seen)).mp ha).2 (h ▸ List.mem_cons_self _ _)
        have hbx : b ≠ x := fun h =>
          ((mem_firstOccsAux xs (x :: seen)).mp hb).2 (h ▸ List.mem_cons_self _ _)
        rw [List.indexOf_cons_ne _ (Ne.symm hax), List.indexOf_cons_ne _ (Ne.symm hbx)]
        exact Nat.succ_lt_succ hab

theorem count_filter_seen {x : String} :
    ∀ (xs seen : List String), x ∉ seen →
      xs.count x + (xs.filter (fun y => !((x :: seen).contains y))).length
        = (xs.filter (fun y => !(seen.contains y))).length
  | [], _, _ => by simp
  | y :: ys, seen, hx => by
    by_cases hyx : y = x
    · subst hyx
      rw [List.count_cons_self,
        List.filter_cons_of_neg (by simp [List.mem_cons_self]),
        List.filter_cons_of_pos (by simp [hx]), List.length_cons]
      have := count_filter_seen ys seen hx
      omega
    · have hxy : x ≠ y := Ne.symm hyx
      rw [List.count_cons_of_ne hxy]
      by_cases hs : y ∈ seen
      · rw [List.filter_cons_of_neg (by simp [hs]),
          List.filter_cons_of_neg (by simp [hs])]
        exact count_filter_seen ys seen hx
      · rw [List.filter_cons_of_pos (by simp [hs, hyx]),
          List.filter_cons_of_pos (by simp [hs]), List.length_cons,
          List.length_cons]
        have := count_filter_seen ys seen hx
        omega

theorem sum_count_firstOccsAux :
    ∀ (xs seen : List String),
      ((firstOccsAux seen xs).map (fun k => xs.count k)).sum
        = (xs.filter (fun y => !(seen.contains y))).length
  | [], _ => by simp [firstOccsAux]
  | x :: xs, seen => by
    unfold firstOccsAux
    by_cases hc : x ∈ seen
    · rw [if_pos (contains_iff.mpr hc)]
      have hmap : (firstOccsAux seen xs).map (fun k => (x :: xs).count k)
          = (firstOccsAux seen xs).map (fun k => xs.count k) :=
        List.map_congr_left (fun k hk => by
          have hkx : k ≠ x := fun h =>
            ((mem_firstOccsAux xs seen).mp hk).2 (h ▸ hc)
          rw [List.count_cons_of_ne hkx])
      rw [hmap, sum_count_firstOccsAux xs seen,
        List.filter_cons_of_neg (by simp [hc])]
    · rw [if_neg (fun h => hc (contains_iff.mp h)), List.map_cons,
        List.sum_cons, List.count_cons_self]
      have hmap : (firstOccsAux (x :: seen) xs).map (fun k => (x :: xs).count k)
          = (firstOccsAux (x :: seen) xs).map (fun k => xs.count k) :=
        List.map_congr_left (fun k hk => by
          have hkx : k ≠ x := fun h =>
            ((mem_firstOccsAux xs (x :: seen)).mp hk).2 (h ▸ List.mem_cons_self _ _)
          rw [List.count_cons_of_ne hkx])
      rw [hmap, sum_count_firstOccsAux xs (x :: seen),
        List.filter_cons_of_pos (by simp [hc]), List.length_cons]
      have := count_filter_seen xs seen hc
      omega

theorem countOcc_sum (xs : List String) :
    ((countOcc xs).map Prod.snd).sum = xs.length := by
  unfold countOcc firstOccs
  rw [List.map_map]
  have h := sum_count_firstOccsAux xs []
  have h2 : xs.filter (fun y => !(([] : List String).contains y)) = xs := by
    simp
  rw [h2] at h
  exact h

theorem mem_countOcc {xs : List String} {k : String} {c : Nat} :
    (k, c) ∈ countOcc xs ↔ k ∈ xs ∧ c = xs.count k := by
  unfold countOcc firstOccs
  rw [List.mem_map]
  constructor
  · rintro ⟨a, ha, heq⟩
    simp only [Prod.mk.injEq] at heq
    obtain ⟨rfl, rfl⟩ := heq
    exact ⟨((mem_firstOccsAux xs []).mp ha).1, rfl⟩
  · rintro ⟨h1, rfl⟩
    exact ⟨k, (mem_firstOccsAux xs []).mpr ⟨h1, by simp⟩, rfl⟩

theorem find?_map_pair {k : String} {f : String → Nat} :
    ∀ {ys : List String}, k ∈ ys →
      (ys.map (fun t => (t, f t))).find? (fun p => p.1 == k) = some (k, f k)
  | y :: ys, h => by
    rw [List.map_cons]
    by_cases hyk : y = k
    · subst hyk
      rw [List.find?_cons_of_pos _ (by simp)]
    · have hk : k ∈ ys := by
        rcases List.mem_cons.mp h with rfl | h'
        · exact absurd rfl hyk
        · exact h'
      rw [List.find?_cons_of_neg _ (by simp [hyk])]
      exact find?_map_pair hk

theorem getCount_countOcc (xs : List String) (k : String) :
    getCount (countOcc xs) k = xs.count k := by
  by_cases h : k ∈ xs
  · unfold getCount countOcc firstOccs
    rw [find?_map_pair ((mem_firstOccsAux xs []).mpr ⟨h, by simp⟩)]
  · unfold getCount
    have hf : (countOcc xs).find? (fun p => p.1 == k) = none := by
      rw [List.find?_eq_none]
      intro p hp
      have h1 : p.1 ∈ xs := (mem_countOcc.mp hp).1
      simp only [beq_iff_eq]
      exact fun hk => h (hk ▸ h1)
    rw [hf, List.count_eq_zero_of_not_mem h]

theorem countOcc_pairwise (xs : List String) :
    (countOcc xs).Pairwise (fun p q => xs.indexOf p.1 < xs.indexOf q.1) := by
  unfold countOcc firstOccs
  rw [List.pairwise_map]
  exact firstOccsAux_pairwise xs []

/-! ### The stable descending sort behind `most_common(5)`. -/

theorem mem_insertDesc {p x : String × Nat} :
    ∀ {l : List (String × Nat)}, x ∈ insertDesc p l ↔ x = p ∨ x ∈ l
  | [] => by simp [insertDesc]
  | q :: qs => by
    unfold insertDesc
    by_cases hq : q.2 < p.2
    · rw [if_pos hq]
      simp [List.mem_cons]
    · rw [if_neg hq, List.mem_cons, List.mem_cons,
        mem_insertDesc (l := qs)]
      tauto

theorem mem_sortAux {x : String × Nat} :
    ∀ (l acc : List (String × Nat)),
      x ∈ l.foldl (fun a p => insertDesc p a) acc ↔ x ∈ acc ∨ x ∈ l
  | [], acc => by simp
  | p :: ps, acc => by
    rw [List.foldl_cons, mem_sortAux ps (insertDesc p acc),
      mem_insertDesc, List.mem_cons]
    tauto

theorem mem_sortDesc {x : String × Nat} {l : List (String × Nat)} :
    x ∈ sortDesc l ↔ x ∈ l := by
  unfold sortDesc
  rw [mem_sortAux]
  simp

theorem insertDesc_pairwise {r : String × Nat → Nat} {p : String × Nat} :
    ∀ {l : List (String × Nat)},
      l.Pairwise (fun a b => b.2 < a.2 ∨ (a.2 = b.2 ∧ r a < r b)) →
      (∀ q ∈ l, r q < r p) →
      (insertDesc p l).Pairwise (fun a b => b.2 < a.2 ∨ (a.2 = b.2 ∧ r a < r b))
  | [], _, _ => by simp [insertDesc]
  | q :: qs, hp, hr => by
    unfold insertDesc
    by_cases hq : q.2 < p.2
    · rw [if_pos hq]
      refine List.pairwise_cons.mpr ⟨?_, hp⟩
      intro b hb
      rcases List.mem_cons.mp hb with rfl | hb'
      · exact Or.inl hq
      · have hqb := (List.pairwise_cons.mp hp).1 b hb'
        rcases hqb with h1 | ⟨h1, _⟩
        · exact Or.inl (lt_trans h1 hq)
        · exact Or.inl (h1 ▸ hq)
    · rw [if_neg hq]
      have hp2 : p.2 ≤ q.2 := Nat.le_of_not_lt hq
      refine List.pairwise_cons.mpr ⟨?_, ?_⟩
      · intro b hb
        rcases mem_insertDesc.mp hb with rfl | hb'
        · rcases Nat.lt_or_eq_of_le hp2 with h1 | h1
          · exact Or.inl h1
          · exact Or.inr ⟨h1.symm, hr q (List.mem_cons_self _ _)⟩
        · exact (List.pairwise_cons.mp hp).1 b hb'
      · exact insertDesc_pairwise (List.pairwise_cons.mp hp).2
          (fun b hb => hr b (List.mem_cons_of_mem _ hb))

theorem sortAux_pairwise {r : String × Nat → Nat} :
    ∀ (l acc : List (String × Nat)),
      acc.Pairwise (fun a b => b.2 < a.2 ∨ (a.2 = b.2 ∧ r a < r b)) →
      (∀ q ∈ acc, ∀ p ∈ l, r q < r p) →
      l.Pairwise (fun a b => r a < r b) →
      (l.foldl (fun a p => insertDesc p a) acc).Pairwise
        (fun a b => b.2 < a.2 ∨ (a.2 = b.2 ∧ r a < r b))
  | [], _, hacc, _, _ => hacc
  | p :: ps, acc, hacc, hcross, hl => by
    rw [List.foldl_cons]
    apply sortAux_pairwise ps (insertDesc p acc)
    · exact insertDesc_pairwise hacc
        (fun q hq => hcross q hq p (List.mem_cons_self _ _))
    · intro q hq x hx
      rcases mem_insertDesc.mp hq with rfl | hq'
      · exact (List.pairwise_cons.mp hl).1 x hx
      · exact hcross q hq' x (List.mem_cons_of_mem _ hx)
    · exact (List.pairwise_cons.mp hl).2

theorem sortDesc_pairwise {r : String × Nat → Nat} {l : List (String × Nat)}
    (hl : l.Pairwise (fun a b => r a < r b)) :
    (sortDesc l).Pairwise (fun a b => b.2 < a.2 ∨ (a.2 = b.2 ∧ r a < r b)) :=
  sortAux_pairwise l [] (by simp) (by simp) hl

theorem sortDesc_countOcc_pairwise (xs : List String) :
    (sortDesc (countOcc xs)).Pairwise
      (fun p q => q.2 < p.2 ∨ (p.2 = q.2 ∧ xs.indexOf p.1 < xs.indexOf q.1)) :=
  sortDesc_pairwise (r := fun p => xs.indexOf p.1) (countOcc_pairwise xs)

/-! ### The topic map's keys are the concatenated topics' first
occurrences, in order. -/

theorem firstOccsAux_congr :
    ∀ (xs seen1 seen2 : List String),
      (∀ y, y ∈ seen1 ↔ y ∈ seen2) →
      firstOccsAux seen1 xs = firstOccsAux seen2 xs
  | [], _, _, _ => rfl
  | x :: xs, s1, s2, h => by
    unfold firstOccsAux
    by_cases hc : x ∈ s1
    · rw [if_pos (contains_iff.mpr hc), if_pos (contains_iff.mpr ((h x).mp hc)),
        firstOccsAux_congr xs s1 s2 h]
    · have hc2 : x ∉ s2 := fun hx => hc ((h x).mpr hx)
      rw [if_neg (fun hh => hc (contains_iff.mp hh)),
        if_neg (fun hh => hc2 (contains_iff.mp hh))]
      congr 1
      apply firstOccsAux_congr
      intro y
      rw [List.mem_cons, List.mem_cons, h y]

theorem firstOccsAux_append :
    ∀ (xs ys seen : List String),
      firstOccsAux seen (xs ++ ys)
        = firstOccsAux seen xs ++ firstOccsAux (seen ++ xs) ys
  | [], ys, seen => by simp [firstOccsAux]
  | x :: xs, ys, seen => by
    rw [List.cons_append]
    simp only [firstOccsAux]
    by_cases hc : x ∈ seen
    · rw [if_pos (contains_iff.mpr hc), if_pos (contains_iff.mpr hc),
        firstOccsAux_append xs ys seen]
      congr 1
      apply firstOccsAux_congr
      intro y
      rw [List.mem_append, List.mem_append, List.mem_cons]
      constructor
      · rintro (h | h)
        · exact Or.inl h
        · exact Or.inr (Or.inr h)
      · rintro (h | rfl | h)
        · exact Or.inl h
        · exact Or.inl hc
        · exact Or.inr h
    · rw [if_neg (fun hh => hc (contains_iff.mp hh)),
        if_neg (fun hh => hc (contains_iff.mp hh)),
        firstOccsAux_append xs ys (x :: seen), List.cons_append]
      congr 2
      apply firstOccsAux_congr
      intro y
      rw [List.mem_append, List.mem_cons, List.mem_append, List.mem_cons]
      tauto

theorem any_key_iff {m : List (String × List Article)} {t : String} :
    (m.any (fun p => p.1 == t)) = true ↔ t ∈ m.map Prod.fst := by
  rw [List.any_eq_true]
  constructor
  · rintro ⟨p, hp, hpt⟩
    exact List.mem_map.mpr ⟨p, hp, beq_iff_eq.mp hpt⟩
  · rintro h
    obtain ⟨p, hp, hpt⟩ := List.mem_map.mp h
    exact ⟨p, hp, by simp [hpt]⟩

theorem keys_addTopic {m : List (String × List Article)} {t : String}
    {a : Article} :
    (addTopic m t a).map Prod.fst =
      if m.any (fun p => p.1 == t) then m.map Prod.fst
      else m.map Prod.fst ++ [t] := by
  unfold addTopic
  by_cases hc : m.any (fun p => p.1 == t)
  · rw [if_pos hc, if_pos hc, List.map_map]
    apply List.map_congr_left
    intro p _
    by_cases hpt : p.1 == t
    · simp [Function.comp, hpt]
    · simp [Function.comp, hpt]
  · rw [if_neg hc, if_neg hc, List.map_append]
    rfl

theorem keys_foldl_addTopic {a : Article} :
    ∀ (l : List String) (m : List (String × List Article)),
      ((l.foldl (fun m t => addTopic m t a) m).map Prod.fst)
        = m.map Prod.fst ++ firstOccsAux (m.map Prod.fst) l
  | [], m => by simp [firstOccsAux]
  | t :: ts, m => by
    rw [List.foldl_cons, keys_foldl_addTopic ts (addTopic m t a), keys_addTopic]
    simp only [firstOccsAux]
    by_cases hc : t ∈ m.map Prod.fst
    · rw [if_pos (any_key_iff.mpr hc), if_pos (contains_iff.mpr hc)]
    · rw [if_neg (fun h => hc (any_key_iff.mp h)),
        if_neg (fun h => hc (contains_iff.mp h)), List.append_assoc,
        List.singleton_append]
      congr 2
      apply firstOccsAux_congr
      intro y
      rw [List.mem_append, List.mem_singleton, List.mem_cons]
      tauto

theorem keys_buildTopicMapAux :
    ∀ (l : List Article) (m : List (String × List Article)),
      (buildTopicMapAux m l).map Prod.fst
        = m.map Prod.fst ++ firstOccsAux (m.map Prod.fst) (allTopics l)
  | [], m => by simp [buildTopicMapAux, allTopics, firstOccsAux]
  | a :: rest, m => by
    unfold buildTopicMapAux
    rw [keys_buildTopicMapAux rest (addArticleTopics m a)]
    unfold addArticleTopics
    rw [keys_foldl_addTopic]
    have hall : allTopics (a :: rest) = a.topics ++ allTopics rest := by
      simp [allTopics]
    rw [hall, firstOccsAux_append, List.append_assoc]
    congr 2
    apply firstOccsAux_congr
    intro y
    rw [List.mem_append, List.mem_append, mem_firstOccsAux]
    tauto

theorem keys_buildTopicMap (articles : List Article) :
    (buildTopicMap articles).map Prod.fst = firstOccs (allTopics articles) := by
  unfold buildTopicMap firstOccs
  rw [keys_buildTopicMapAux]
  rfl

/-! ### Topic overlap: the `other_topics` union and the unique-topics
difference. -/

theorem mem_foldl_append {x : String} :
    ∀ (l : List Article) (init : List String),
      x ∈ l.foldl (fun s b => s ++ b.topics) init
        ↔ x ∈ init ∨ ∃ b ∈ l, x ∈ b.topics
  | [], _ => by simp
  | b :: bs, init => by
    rw [List.foldl_cons, mem_foldl_append bs (init ++ b.topics),
      List.mem_append]
    constructor
    · rintro ((h | h) | ⟨c, hc, hx⟩)
      · exact Or.inl h
      · exact Or.inr ⟨b, List.mem_cons_self _ _, h⟩
      · exact Or.inr ⟨c, List.mem_cons_of_mem _ hc, hx⟩
    · rintro (h | ⟨c, hc, hx⟩)
      · exact Or.inl (Or.inl h)
      · rcases List.mem_cons.mp hc with rfl | hc'
        · exact Or.inl (Or.inr hx)
        · exact Or.inr ⟨c, hc', hx⟩

theorem mem_otherTopicsFor {articles : List Article} {a : Article}
    {x : String} :
    x ∈ otherTopicsFor articles a ↔ ∃ b ∈ articles, b ≠ a ∧ x ∈ b.topics := by
  unfold otherTopicsFor
  rw [mem_foldl_append]
  constructor
  · rintro (h | ⟨b, hb, hx⟩)
    · exact absurd h (List.not_mem_nil x)
    · have hf := List.mem_filter.mp hb
      exact ⟨b, hf.1, by simpa using hf.2, hx⟩
  · rintro ⟨b, hb, hba, hx⟩
    exact Or.inr ⟨b, List.mem_filter.mpr ⟨hb, by simpa using hba⟩, hx⟩

theorem uniqueFor_eq_spec {articles : List Article} {a : Article} :
    uniqueFor articles a = (firstOccs a.topics).filter
      (fun t => decide (∀ b ∈ articles, b ≠ a → t ∉ b.topics)) := by
  unfold uniqueFor
  apply List.filter_congr
  intro t _
  by_cases hP : ∀ b ∈ articles, b ≠ a → t ∉ b.topics
  · have hc : (otherTopicsFor articles a).contains t = false := by
      rw [← Bool.not_eq_true]
      intro hh
      obtain ⟨b, hb, hba, ht'⟩ := mem_otherTopicsFor.mp (contains_iff.mp hh)
      exact hP b hb hba ht'
    rw [hc, decide_eq_true hP]
    rfl
  · push_neg at hP
    obtain ⟨b, hb, hba, ht'⟩ := hP
    have hc : (otherTopicsFor articles a).contains t = true :=
      contains_iff.mpr (mem_otherTopicsFor.mpr ⟨b, hb, hba, ht'⟩)
    rw [hc, decide_eq_false (by push_neg; exact ⟨b, hb, hba, ht'⟩)]
    rfl

theorem uniquePureLoop_eq_spec {all : List Article} :
    ∀ (l : List Article) (i : Nat),
      uniquePureLoop all l i = uniqueSpecAux all l i
  | [], _ => rfl
  | a :: rest, i => by
    unfold uniquePureLoop uniqueSpecAux
    rw [← uniqueFor_eq_spec, uniquePureLoop_eq_spec rest (i + 1)]

theorem mem_commonTopics {xs : List String} {t : String} :
    t ∈ commonTopics (countOcc xs) ↔ 2 ≤ xs.count t := by
  unfold commonTopics
  rw [List.mem_map]
  constructor
  · rintro ⟨p, hp, rfl⟩
    have hf := List.mem_filter.mp hp
    obtain ⟨_, h2⟩ := mem_countOcc.mp hf.1
    have h3 : 2 ≤ p.2 := by simpa using hf.2
    rw [← h2]
    exact h3
  · intro h2
    have hmem : t ∈ xs := List.count_pos_iff.mp (by omega)
    exact ⟨(t, xs.count t),
      List.mem_filter.mpr ⟨mem_countOcc.mpr ⟨hmem, rfl⟩, by simpa using h2⟩,
      rfl⟩

/-! ### The claims. -/

/-- Claim C1: on every non-empty input, the sentiment distribution maps
each observed label (an article with no label counting as `"Neutral"`) to
its count and omits zero counts, and the counts total the number of input
articles. -/
theorem sentiment_distribution_spec (articles : List Article)
    (hne : articles ≠ []) (ht : allTitled articles) :
    (((analyze articles).sentiment_distribution.map Prod.snd).sum
        = articles.length)
    ∧ ∀ l c, ((l, c) ∈ (analyze articles).sentiment_distribution ↔
        (c = (articles.map (fun a =>
          ((a.sentiment.bind Sentiment.sentiment).getD "Neutral"))).count l
         ∧ c ≠ 0)) := by
  rw [analyze_eq hne ht]
  have hd : (analyzeOk articles).sentiment_distribution
      = countOcc (articles.map labelD) := rfl
  rw [hd]
  have hlab : articles.map (fun a =>
      ((a.sentiment.bind Sentiment.sentiment).getD "Neutral"))
      = articles.map labelD := rfl
  constructor
  · rw [countOcc_sum, List.length_map]
  · intro l c
    rw [mem_countOcc, hlab]
    constructor
    · rintro ⟨hmem, rfl⟩
      have := List.count_pos_iff.mpr hmem
      exact ⟨rfl, by omega⟩
    · rintro ⟨rfl, hne0⟩
      exact ⟨List.count_pos_iff.mp (Nat.pos_of_ne_zero hne0), rfl⟩

/-- Witness for C1 at the spec's three-article example. -/
theorem sentiment_distribution_spec_witness :
    ((analyze exThree).sentiment_distribution.map Prod.snd).sum
      = exThree.length :=
  (sentiment_distribution_spec exThree (by decide) (by decide)).1

/-- Helper: the formatted mean of the worked example. -/
theorem format2_seven_tenths : format2 (7 / 10) = "0.70" := by
  have h : ((7 : ℚ) / 10 * 100) = 70 := by norm_num
  simp only [format2, h]
  have h2 : roundHalfEven (70 : ℚ) = 70 := by
    simp only [roundHalfEven]
    have hf : ⌊(70 : ℚ)⌋ = 70 := by norm_num
    rw [hf]
    norm_num
  rw [h2]
  decide

/-- Claim C2: on every non-empty input, `final_sentiment` is the fixed
template around the priority classification of the label counts and the
mean confidence formatted to two decimal places. -/
theorem final_sentiment_spec (articles : List Article)
    (hne : articles ≠ []) (ht : allTitled articles) :
    (analyze articles).final_sentiment =
      "The news coverage is " ++
        (if (articles.map labelD).count "Negative"
              < (articles.map labelD).count "Positive"
            ∧ (articles.map labelD).count "Neutral"
              < (articles.map labelD).count "Positive"
         then "mostly positive"
         else if (articles.map labelD).count "Positive"
              < (articles.map labelD).count "Negative"
            ∧ (articles.map labelD).count "Neutral"
              < (articles.map labelD).count "Negative"
         then "mostly negative"
         else if (articles.map labelD).count "Positive"
              < (articles.map labelD).count "Neutral"
            ∧ (articles.map labelD).count "Negative"
              < (articles.map labelD).count "Neutral"
         then "generally neutral"
         else "mixed") ++
        " with an average confidence of " ++
        format2 ((articles.map confD).sum / (articles.length : ℚ)) ++ "." := by
  rw [analyze_eq hne ht]
  show "The news coverage is " ++ classify (countOcc (articles.map labelD)) ++
      " with an average confidence of " ++
      format2 (if (articles.map confD).isEmpty then 0
        else (articles.map confD).sum / ((articles.map confD).length : ℚ)) ++
      "." = _
  have hclass : classify (countOcc (articles.map labelD)) =
      (if (articles.map labelD).count "Negative"
            < (articles.map labelD).count "Positive"
          ∧ (articles.map labelD).count "Neutral"
            < (articles.map labelD).count "Positive"
       then "mostly positive"
       else if (articles.map labelD).count "Positive"
            < (articles.map labelD).count "Negative"
          ∧ (articles.map labelD).count "Neutral"
            < (articles.map labelD).count "Negative"
       then "mostly negative"
       else if (articles.map labelD).count "Positive"
            < (articles.map labelD).count "Neutral"
          ∧ (articles.map labelD).count "Negative"
            < (articles.map labelD).count "Neutral"
       then "generally neutral"
       else "mixed") := by
    unfold classify
    simp only [getCount_countOcc, gt_iff_lt, max_lt_iff]
  have havg : (if (articles.map confD).isEmpty then (0 : ℚ)
      else (articles.map confD).sum / ((articles.map confD).length : ℚ))
      = (articles.map confD).sum / (articles.length : ℚ) := by
    have hie : (articles.map confD).isEmpty = false := by
      cases articles with
      | nil => exact absurd rfl hne
      | cons a rest => rfl
    rw [hie, List.length_map]
    rfl
  rw [hclass, havg]

/-- Witness for C2: the spec's worked example produces the distribution
{Positive: 2, Negative: 1} and exactly the predicted sentence. -/
theorem final_sentiment_spec_witness :
    (analyze exThree).final_sentiment =
      "The news coverage is mostly positive with an average confidence of 0.70."
    ∧ (analyze exThree).sentiment_distribution
        = [("Positive", 2), ("Negative", 1)] := by
  constructor
  · rw [final_sentiment_spec exThree (by decide) (by decide)]
    have hsum : (exThree.map confD).sum / ((exThree.length : ℚ)) = 7 / 10 := by
      show ((9 : ℚ) / 10 + ((8 : ℚ) / 10 + ((4 : ℚ) / 10 + 0)))
          / (((3 : ℕ) : ℚ)) = 7 / 10
      norm_num
    rw [hsum, format2_seven_tenths]
    decide
  · decide

/-- Claim C3: the empty input returns the no-data result through the
normal path: empty collections, the exact sentence, and no error field. -/
theorem empty_input_spec :
    (analyze []).sentiment_distribution = []
    ∧ (analyze []).coverage_differences = []
    ∧ (analyze []).topic_analysis = none
    ∧ (analyze []).final_sentiment = "No data available"
    ∧ (analyze []).error = none
    ∧ (analyze []).final_sentiment ≠ "Error in analysis" := by
  refine ⟨rfl, rfl, rfl, rfl, rfl, ?_⟩
  decide

/-- Claim C4: `most_common_topics` has at most 5 entries, each pairing a
topic with its frequency in the concatenated topic sequence, ordered by
descending count with ties broken by first appearance (the index of a
topic's first occurrence), and no excluded topic outcounts an included
one. -/
theorem most_common_topics_spec (articles : List Article)
    (hne : articles ≠ []) (ht : allTitled articles) :
    ∃ ta, (analyze articles).topic_analysis = some ta
      ∧ ta.most_common_topics.length ≤ 5
      ∧ (∀ p ∈ ta.most_common_topics,
          p.1 ∈ allTopics articles ∧ p.2 = (allTopics articles).count p.1)
      ∧ ta.most_common_topics.Pairwise (fun p q =>
          q.2 < p.2 ∨ (p.2 = q.2
            ∧ (allTopics articles).indexOf p.1
              < (allTopics articles).indexOf q.1))
      ∧ ∀ t ∈ allTopics articles,
          (∃ c, (t, c) ∈ ta.most_common_topics)
          ∨ ∀ p ∈ ta.most_common_topics, (allTopics articles).count t ≤ p.2 := by
  rw [analyze_eq hne ht]
  refine ⟨_, rfl, ?_, ?_, ?_, ?_⟩
  · show ((sortDesc (countOcc (allTopics articles))).take 5).length ≤ 5
    rw [List.length_take]
    exact Nat.min_le_left _ _
  · intro p hp
    have hp1 : p ∈ sortDesc (countOcc (allTopics articles)) :=
      List.take_subset _ _ hp
    have hp2 := mem_sortDesc.mp hp1
    exact mem_countOcc.mp hp2
  · exact (sortDesc_countOcc_pairwise (allTopics articles)).sublist
      (List.take_sublist _ _)
  · intro t htm
    have hmem : (t, (allTopics articles).count t)
        ∈ sortDesc (countOcc (allTopics articles)) :=
      mem_sortDesc.mpr (mem_countOcc.mpr ⟨htm, rfl⟩)
    have hsplit : sortDesc (countOcc (allTopics articles))
        = (sortDesc (countOcc (allTopics articles))).take 5
          ++ (sortDesc (countOcc (allTopics articles))).drop 5 :=
      (List.take_append_drop _ _).symm
    have hPW := sortDesc_countOcc_pairwise (allTopics articles)
    rw [hsplit] at hmem hPW
    rcases List.mem_append.mp hmem with h1 | h1
    · exact Or.inl ⟨_, h1⟩
    · refine Or.inr (fun p hp => ?_)
      have hcross := (List.pairwise_append.mp hPW).2.2 p hp _ h1
      rcases hcross with h2 | ⟨h2, _⟩
      · exact Nat.le_of_lt h2
      · exact Nat.le_of_eq h2.symm

set_option maxRecDepth 40000 in
/-- Witness for C4 at the two-topic-list example. -/
theorem most_common_topics_spec_witness :
    (∃ ta, (analyze exEV).topic_analysis = some ta
       ∧ ta.most_common_topics.length ≤ 5)
    ∧ ((analyze exEV).topic_analysis.map (fun ta => ta.most_common_topics))
        = some [("EV", 2), ("Stock", 1), ("Cybertruck", 1)] := by
  constructor
  · obtain ⟨ta, h1, h2, -, -, -⟩ :=
      most_common_topics_spec exEV (by decide) (by decide)
    exact ⟨ta, h1, h2⟩
  · decide

/-- Claim C5: whenever both a positive and a negative article exist, the
coverage differences start with exactly the one polarity-contrast entry
for the first positive and first negative article, followed by the topic
contrasts; and on every input whatsoever their length is at most 5. -/
theorem coverage_differences_spec (articles : List Article) :
    (allTitled articles →
      ∀ p ps n ns, articles.filter isPos = p :: ps →
        articles.filter isNeg = n :: ns →
        (analyze articles).coverage_differences =
          { comparison := titleD p ++ " presents a positive view, while " ++
              titleD n ++ " discusses negative aspects."
            impact := "These contrasting viewpoints suggest mixed market reactions or controversial developments." }
          :: (topicContrastsPure (buildTopicMap articles)).take 4)
    ∧ (analyze articles).coverage_differences.length ≤ 5 := by
  constructor
  · intro ht p ps n ns hp hn
    have hne : articles ≠ [] := by
      intro h
      rw [h] at hp
      simp at hp
    rw [analyze_eq hne ht]
    show ((polarityPure articles
      ++ topicContrastsPure (buildTopicMap articles)).take 5) = _
    have hpp : polarityPure articles = [polarityCmp (titleD p) (titleD n)] := by
      unfold polarityPure
      rw [hp, hn]
    rw [hpp]
    rfl
  · unfold analyze
    by_cases he : articles.isEmpty
    · rw [if_pos he]
      show (0 : Nat) ≤ 5
      omega
    · rw [if_neg he]
      cases hb : analyzeBody articles with
      | error e =>
        show (0 : Nat) ≤ 5
        omega
      | ok r =>
        obtain ⟨c1, c2, ov, rfl⟩ := analyzeBody_eq_ok hb
        show ((c1 ++ c2).take 5).length ≤ 5
        rw [List.length_take]
        exact Nat.min_le_left _ _

set_option maxRecDepth 40000 in
/-- Witness for C5: the EV example begins with the polarity contrast of
its two articles. -/
theorem coverage_differences_spec_witness :
    (analyze exEV).coverage_differences =
      { comparison := "Tesla stock soars presents a positive view, while Cybertruck delayed again discusses negative aspects."
        impact := "These contrasting viewpoints suggest mixed market reactions or controversial developments." }
      :: (topicContrastsPure (buildTopicMap exEV)).take 4 := by
  rw [(coverage_differences_spec exEV).1 (by decide) evPos [] evNeg []
    (by decide) (by decide)]
  rfl

/-- Helper: the pure topic-contrast pass literally concatenates, per map
entry in order, one comparison when the first two articles' labels differ
and nothing otherwise. -/
theorem topicContrastsPure_eq_flatten :
    ∀ (m : List (String × List Article)),
      topicContrastsPure m = (m.map (fun p =>
        match p.2 with
        | a1 :: a2 :: _ =>
          if rawLabel a1 = rawLabel a2 then []
          else [topicCmp p.1 (titleD a1) (titleD a2)]
        | _ => [])).flatten
  | [] => rfl
  | (t, as) :: rest => by
    rw [List.map_cons, List.flatten_cons]
    show topicContrast1Pure t as ++ topicContrastsPure rest = _
    rw [topicContrastsPure_eq_flatten rest]
    congr 1
    match as with
    | [] => rfl
    | [a] => rfl
    | a1 :: a2 :: rest2 =>
      show (if rawLabel a1 == rawLabel a2 then []
            else [topicCmp t (titleD a1) (titleD a2)])
          = (if rawLabel a1 = rawLabel a2 then []
            else [topicCmp t (titleD a1) (titleD a2)])
      by_cases hl : rawLabel a1 = rawLabel a2
      · rw [if_pos (beq_iff_eq.mpr hl), if_pos hl]
      · rw [if_neg (fun hh => hl (beq_iff_eq.mp hh)), if_neg hl]

/-- Claim C6: the topic-contrast generator walks the topic map in first
occurrence order of the concatenated topics and, for each topic, emits
exactly one comparison naming the topic and the first two associated
articles' titles precisely when those two articles' sentiment labels
differ; each associated article is an input article carrying the topic. -/
theorem topic_contrast_spec (articles : List Article)
    (ht : allTitled articles) :
    ∃ cs, topicContrasts (buildTopicMap articles) = Except.ok cs
      ∧ cs = ((buildTopicMap articles).map (fun p =>
          match p.2 with
          | a1 :: a2 :: _ =>
            if rawLabel a1 = rawLabel a2 then []
            else [topicCmp p.1 (titleD a1) (titleD a2)]
          | _ => [])).flatten
      ∧ (buildTopicMap articles).map Prod.fst = firstOccs (allTopics articles)
      ∧ ∀ p ∈ buildTopicMap articles, ∀ b ∈ p.2,
          b ∈ articles ∧ p.1 ∈ b.topics := by
  have hm : ∀ p ∈ buildTopicMap articles, ∀ a ∈ p.2, a.title ≠ none :=
    fun p hp a ha => ht a (buildTopicMap_article_mem p hp a ha).1
  exact ⟨topicContrastsPure (buildTopicMap articles), topicContrasts_ok hm,
    topicContrastsPure_eq_flatten _, keys_buildTopicMap articles,
    buildTopicMap_article_mem⟩

set_option maxRecDepth 40000 in
/-- Witness for C6: two articles with identical labels sharing a topic
yield no topic contrast at all. -/
theorem topic_contrast_spec_witness :
    topicContrasts (buildTopicMap exSame) = Except.ok [] := by
  obtain ⟨cs, h1, h2, -, -⟩ := topic_contrast_spec exSame (by decide)
  rw [h1, h2]
  rfl

set_option maxRecDepth 40000 in
/-- Counterexample to claim C7 as stated: with the same record twice, the
index-based set difference of the claim is empty for article 1 (index 0),
yet the code — whose `other_article != article` loop skips every article
equal by value — still reports `"X"` as unique to both copies. -/
theorem topic_overlap_claim_cex :
    ((analyze [dupArt, dupArt]).topic_analysis.map
        (fun ta => ta.topic_overlap.map
          (fun ov => ov.unique_topics_by_article)))
      = some (some [("Article 1 (T...)", ["X"]), ("Article 2 (T...)", ["X"])])
    ∧ (dupArt.topics.filter
        (fun t => decide (∀ j : Fin ([dupArt, dupArt].length),
          j.val ≠ 0 → t ∉ ([dupArt, dupArt].get j).topics))) = [] := by
  constructor
  · decide
  · decide

/-- Claim C7, amended: with at least two articles, `topic_overlap` holds
the topics of cross-article frequency at least 2 as `common_topics`, and
keys article `i` (1-based, with its truncated title) to the topics no
record-distinct article carries, when that set is non-empty; with fewer
than two articles `topic_overlap` is empty. -/
theorem topic_overlap_spec (articles : List Article)
    (ht : allTitled articles) :
    (2 ≤ articles.length →
      ∃ ta ov, (analyze articles).topic_analysis = some ta
        ∧ ta.topic_overlap = some ov
        ∧ (∀ t, t ∈ ov.common_topics ↔ 2 ≤ (allTopics articles).count t)
        ∧ ov.unique_topics_by_article = uniqueSpec articles)
    ∧ (articles.length < 2 →
        ∀ ta, (analyze articles).topic_analysis = some ta →
          ta.topic_overlap = none) := by
  constructor
  · intro h2
    have hne : articles ≠ [] := by
      intro h
      rw [h] at h2
      simp at h2
    rw [analyze_eq hne ht]
    refine ⟨_, { common_topics := commonTopics (countOcc (allTopics articles))
                 unique_topics_by_article := uniquePureLoop articles articles 0 },
      rfl, ?_, ?_, ?_⟩
    · show overlapPure articles = some _
      unfold overlapPure
      rw [if_pos h2]
    · intro t
      exact mem_commonTopics
    · show uniquePureLoop articles articles 0 = uniqueSpecAux articles articles 0
      exact uniquePureLoop_eq_spec articles 0
  · intro hlt ta hta
    cases articles with
    | nil =>
      exact absurd hta (by simp [analyze, emptyResult])
    | cons a rest =>
      cases rest with
      | cons b r2 =>
        simp only [List.length_cons] at hlt
        omega
      | nil =>
        rw [analyze_eq (by simp) ht] at hta
        have hx : (some { most_common_topics := mostCommon 5 (countOcc (allTopics [a]))
                          topic_overlap := overlapPure [a] }
            : Option TopicAnalysis) = some ta := hta
        have hta' : ta = { most_common_topics := mostCommon 5 (countOcc (allTopics [a]))
                           topic_overlap := overlapPure [a] } :=
          (Option.some.inj hx).symm
        rw [hta']
        show overlapPure [a] = none
        unfold overlapPure
        rw [if_neg (by simp)]

set_option maxRecDepth 40000 in
/-- Witness for the amended C7 at the spec's EV example: common topics
{"EV"}, unique topics {"Stock"} and {"Cybertruck"}. -/
theorem topic_overlap_spec_witness :
    (∃ ta ov, (analyze exEV).topic_analysis = some ta
       ∧ ta.topic_overlap = some ov
       ∧ (∀ t, t ∈ ov.common_topics ↔ 2 ≤ (allTopics exEV).count t)
       ∧ ov.unique_topics_by_article = uniqueSpec exEV)
    ∧ ((analyze exEV).topic_analysis.map (fun ta => ta.topic_overlap))
        = some (some { common_topics := ["EV"]
                       unique_topics_by_article :=
                         [("Article 1 (Tesla stock soars...)", ["Stock"]),
                          ("Article 2 (Cybertruck delayed again...)",
                            ["Cybertruck"])] }) :=
  ⟨(topic_overlap_spec exEV (by decide)).1 (by decide), by decide⟩

/-- Claim C8: whenever the aggregation body faults, `analyze` still
returns, and returns exactly the error-state result: empty collections,
the sentence "Error in analysis", and the diagnostic message attached. -/
theorem error_handling_spec (articles : List Article) (e : String)
    (h : analyzeBody articles = Except.error e) :
    analyze articles = { sentiment_distribution := []
                         coverage_differences := []
                         topic_analysis := none
                         final_sentiment := "Error in analysis"
                         error := some e } := by
  have hne : articles ≠ [] := by
    intro hh
    rw [hh, analyzeBody_ok (by intro a ha; simp at ha)] at h
    exact Except.noConfusion h
  cases articles with
  | nil => exact absurd rfl hne
  | cons a r =>
    show (match analyzeBody (a :: r) with
          | Except.ok r' => r'
          | Except.error e' => emptyResult "Error in analysis" (some e')) = _
    rw [h]
    rfl

set_option maxRecDepth 40000 in
/-- Witness for C8: a positive article with no title makes the polarity
f-string raise `KeyError('title')`, and the whole result degrades to the
error shape. -/
theorem error_handling_spec_witness :
    analyze exFail = { sentiment_distribution := []
                       coverage_differences := []
                       topic_analysis := none
                       final_sentiment := "Error in analysis"
                       error := some "'title'" } :=
  error_handling_spec exFail "'title'" (by rfl)

/-- Claim C9: the method is deterministic and stateless — calling it
twice on the same input yields the same result, the instance state is
untouched, and the result does not depend on the instance at all. -/
theorem analyze_deterministic (s : ComparativeAnalyzer)
    (articles : List Article) :
    (s.analyzeM articles).1 = ((s.analyzeM articles).2.analyzeM articles).1
    ∧ (s.analyzeM articles).2 = s
    ∧ ∀ s' : ComparativeAnalyzer,
        (s.analyzeM articles).1 = (s'.analyzeM articles).1 :=
  ⟨rfl, rfl, fun _ => rfl⟩

/-- Claim C10: the call does not mutate its argument — the input list
(and with it every record, topic sequence and sentiment sub-object in it)
is the same after the call as before. -/
theorem analyze_preserves_input (articles : List Article) :
    (analyzeCall articles).2 = articles
    ∧ ∀ i : Fin articles.length,
        ((analyzeCall articles).2.get ⟨i.val, i.isLt⟩) = articles.get i :=
  ⟨rfl, fun _ => rfl⟩
